import Mathlib

/-!
# Verification of the build-acceleration subsystem of auto-py-to-exe

Shallow embedding of `auto_py_to_exe/pro_features.py` (classes `BuildCache`
and `HiddenImportsDetector`) together with the configuration constants of
`auto_py_to_exe/config.py`, and proofs about the claims of the specification.

Modelling conventions:

* Python `dict`s (insertion ordered, unique string keys) are association
  lists `List (String × α)`; inserting an existing key replaces the value in
  place, as `self.metadata[signature] = ...` does.
* The filesystem is an association list from path strings to nodes.  A build
  artifact (file or directory tree) is treated as one opaque node carrying
  its byte content; `shutil.copytree`/`shutil.copy2` copy the node wholesale,
  `shutil.rmtree`/`Path.unlink` remove it, and `_get_directory_size` returns
  its byte length, exactly as the Python code treats artifacts opaquely.
  Environment-dependent write failures (disk full, permissions), which the
  Python code surfaces as exceptions caught in `cache_build`, are modelled by
  a set `badDst` of destination paths on which a copy raises.
* `datetime.now()`, ISO-8601 `timestamp` strings and `time.time()` are
  modelled by a rational clock (seconds).  For well-formed ISO strings of
  the shape `datetime.isoformat` produces, lexicographic string order agrees
  with chronological order, so sorting by the rational timestamp is faithful
  to `sorted(..., key=lambda x: x[1]['timestamp'])`.
* SHA-256 (`hashlib.sha256(...).hexdigest()`) is an environment parameter
  `HashModel`; claims that rely on collision resistance take it as an
  explicit hypothesis, all other claims hold for every hash function.
* Python `float` sizes (`size_mb`) are modelled as rationals; the byte
  count divided by `1024 * 1024` and the `* 0.8` threshold are exact here.
-/

/-- Environment parameter for `hashlib.sha256`: `fileHash` models hashing the
raw bytes of a file (`_get_file_hash`), `strHash` models hashing the encoded
signature string (`_get_build_signature`). -/
structure HashModel where
  fileHash : List Nat → String
  strHash : String → String

/-- A filesystem node: one build artifact, script file, or cached copy,
treated opaquely.  `readable` says whether opening it for reading succeeds
(false for permission errors); a directory node is never readable as a byte
stream, matching `IsADirectoryError` being caught by `except IOError`.
`mtime` is the string `str(os.path.getmtime(path))` would produce. -/
structure FsNode where
  isDir : Bool
  readable : Bool
  content : List Nat
  mtime : String
deriving DecidableEq

/-- The filesystem: nodes by path, plus the set of destination paths on
which a copy raises an `OSError` (disk full, permission denied, ...). -/
structure Fs where
  nodes : List (String × FsNode)
  badDst : List String
deriving DecidableEq

/-- Insert-or-replace for an insertion-ordered string-keyed association list,
the semantics of `d[k] = v` on a Python `dict`: an existing key keeps its
position and gets the new value, a new key is appended at the end. -/
def insertKey {α : Type} : List (String × α) → String → α → List (String × α)
  | [], k, v => [(k, v)]
  | (k', v') :: rest, k, v =>
    if k' = k then (k', v) :: rest else (k', v') :: insertKey rest k v

/-- Lookup in a string-keyed association list (`d[k]` / `k in d`). -/
def lookupKey {α : Type} (l : List (String × α)) (k : String) : Option α :=
  (l.find? (fun p => p.1 == k)).map (fun p => p.2)

/-- Removal of the binding of `k` (`del d[k]`); removes the first (and in a
well-formed dict, only) pair with key `k`. -/
def eraseKey {α : Type} (l : List (String × α)) (k : String) : List (String × α) :=
  l.eraseP (fun p => p.1 == k)

/-- `fsLookup fs p` is the node at path `p`, if any (`os.path.exists` etc.). -/
def fsLookup (fs : Fs) (p : String) : Option FsNode :=
  lookupKey fs.nodes p

/-- `os.path.exists(p)`. -/
def pathExists (fs : Fs) (p : String) : Bool :=
  (fsLookup fs p).isSome

/-- `shutil.rmtree(p)` / `Path(p).unlink()`: remove the node at `p`.
Removing a missing path is the identity (the code checks existence first). -/
def fsRemove (fs : Fs) (p : String) : Fs :=
  { fs with nodes := fs.nodes.eraseP (fun q => q.1 == p) }

/-- Write node `n` at path `dst`, replacing any node already there. -/
def fsWrite (fs : Fs) (dst : String) (n : FsNode) : Fs :=
  { fs with nodes := insertKey fs.nodes dst n }

/-- `shutil.copytree(src, dst)` resp. `shutil.copy2(src, dst)`:
`none` models the raised exception.  A copy raises when the environment makes
the destination unwritable (`dst ∈ badDst`), when the source is missing, or —
for a directory source — when the destination already exists
(`FileExistsError` from `copytree`).  `copy2` onto an existing file
overwrites it. -/
def fsCopy (fs : Fs) (src dst : String) : Option Fs :=
  if dst ∈ fs.badDst then none
  else
    match fsLookup fs src with
    | none => none
    | some n =>
      if n.isDir && pathExists fs dst then none
      else some (fsWrite fs dst n)

/-- `BuildCache._get_directory_size(p)` in bytes: the byte size of the
opaque artifact node at `p`; a missing path contributes `0` (the Python
function returns `0` when `rglob` yields nothing or on `OSError`). -/
def directorySize (fs : Fs) (p : String) : Nat :=
  match fsLookup fs p with
  | some n => n.content.length
  | none => 0

/-- The configuration surface of `auto_py_to_exe/config.py` used by the
subsystem; all values are runtime-mutable settings (defaults: enabled,
1024 MB, 30 days, depth 3). -/
structure ProConfig where
  proFeaturesEnabled : Bool
  cacheDir : String
  maxSizeMB : ℚ
  retentionDays : ℚ
  hiddenImportsAutoDetect : Bool
  scanDepth : Nat
  commonModules : List String

/-- One record of the persisted cache metadata
(`signature -> {cache_id, timestamp, script_path, command, size_mb}`). -/
structure CacheEntry where
  cacheId : String
  timestamp : ℚ
  scriptPath : String
  command : String
  sizeMB : ℚ
deriving DecidableEq

/-- The mutable state of a `BuildCache` object: the in-memory metadata dict
`self.metadata`, the filesystem, and the persisted copy of the metadata
(the contents of `cache_metadata.json`, updated by `_save_metadata`). -/
structure BuildState where
  metadata : List (String × CacheEntry)
  fs : Fs
  saved : List (String × CacheEntry)
deriving DecidableEq

/-- `BuildCache._save_metadata`: rewrite the persisted document in full from
the in-memory dict.  (An `IOError` on this write is logged and swallowed by
the code; the model takes the metadata file to be writable.) -/
def saveMetadata (st : BuildState) : BuildState :=
  { st with saved := st.metadata }

/-- `os.path.join(cacheDir, name)` for the paths this code builds. -/
def joinPath (d f : String) : String :=
  if d = "" then f else d ++ "/" ++ f

/-- `BuildCache._get_file_hash`: SHA-256 of the file's bytes, or `""` when
opening/reading raises (missing file, unreadable file, directory). -/
def getFileHash (hm : HashModel) (fs : Fs) (p : String) : String :=
  match fsLookup fs p with
  | some n => if n.readable && !n.isDir then hm.fileHash n.content else ""
  | none => ""

/-- `BuildCache._get_build_signature`:
`sha256(f"{script_hash}:{script_mtime}:{pyinstaller_command}")` where
`script_mtime` is `str(os.path.getmtime(script_path))` if the path exists
and `"0"` otherwise. -/
def getBuildSignature (hm : HashModel) (fs : Fs) (scriptPath cmd : String) : String :=
  let scriptHash := getFileHash hm fs scriptPath
  let scriptMtime :=
    match fsLookup fs scriptPath with
    | some n => n.mtime
    | none => "0"
  hm.strHash (scriptHash ++ ":" ++ scriptMtime ++ ":" ++ cmd)

/-- `timedelta(days=d)` in seconds, the clock being rational seconds. -/
def retentionSeconds (d : ℚ) : ℚ := d * 86400

/-- Total recorded size
`sum(entry.get('size_mb', 0) for entry in self.metadata.values())`. -/
def totalSizeMB (md : List (String × CacheEntry)) : ℚ :=
  (md.map (fun p => p.2.sizeMB)).sum

/-- The cache-local path of an entry's artifact,
`self.cache_dir / entry['cache_id']`. -/
def cachePathOfEntry (cfg : ProConfig) (e : CacheEntry) : String :=
  joinPath cfg.cacheDir e.cacheId

/-- `BuildCache.get_cached_build(script_path, pyinstaller_command)`:
returns the artifact path on a hit and `none` on a miss, together with the
state after the call (a stale entry whose directory is gone is deleted and
the store persisted). -/
def getCachedBuild (cfg : ProConfig) (hm : HashModel) (now : ℚ) (st : BuildState)
    (scriptPath cmd : String) : Option String × BuildState :=
  if !cfg.proFeaturesEnabled then (none, st)
  else
    let signature := getBuildSignature hm st.fs scriptPath cmd
    match lookupKey st.metadata signature with
    | some entry =>
      let cachePath := cachePathOfEntry cfg entry
      if now - entry.timestamp < retentionSeconds cfg.retentionDays then
        if pathExists st.fs cachePath then (some cachePath, st)
        else
          (none, saveMetadata { st with metadata := eraseKey st.metadata signature })
      else (none, st)
    | none => (none, st)

/-- How far `BuildCache._cleanup_old_cache` walks the sorted entry list:
the loop index after which `total_size_mb <= max * 0.8` first holds (the
whole list if the bound is never reached). -/
def stopIndex (cfg : ProConfig) : ℚ → List (String × CacheEntry) → Nat
  | _, [] => 0
  | total, p :: rest =>
    if total - p.2.sizeMB ≤ (0.8 : ℚ) * cfg.maxSizeMB then 1
    else 1 + stopIndex cfg (total - p.2.sizeMB) rest

/-- The body of the eviction loop of `_cleanup_old_cache`: walk the entries
sorted oldest first, remove each entry's directory (when present) and its
metadata record, keep a running total, and stop as soon as the running total
is at most 80% of the limit. -/
def evictLoop (cfg : ProConfig) :
    List (String × CacheEntry) → ℚ → List (String × CacheEntry) → Fs →
    List (String × CacheEntry) × Fs
  | [], _, md, fs => (md, fs)
  | (sig, e) :: rest, total, md, fs =>
    let fs1 := fsRemove fs (cachePathOfEntry cfg e)
    let md1 := eraseKey md sig
    let total1 := total - e.sizeMB
    if total1 ≤ (0.8 : ℚ) * cfg.maxSizeMB then (md1, fs1)
    else evictLoop cfg rest total1 md1 fs1

/-- Stable insertion of `x` into a list sorted by the strict comparator
`lt`: `x` goes in front of the first element not strictly below it, so that
elements comparing equal keep their original relative order, as Python's
stable `sorted` does. -/
def insertLt {α : Type} (lt : α → α → Bool) (x : α) : List α → List α
  | [] => [x]
  | q :: rest => if lt q x then q :: insertLt lt x rest else x :: q :: rest

/-- Stable insertion sort by the strict comparator `lt`, modelling Python's
stable `sorted`. -/
def sortLt {α : Type} (lt : α → α → Bool) : List α → List α
  | [] => []
  | x :: xs => insertLt lt x (sortLt lt xs)

/-- `sorted(self.metadata.items(), key=lambda x: x[1]['timestamp'])`:
oldest first (for well-formed ISO strings lexicographic order is
chronological order). -/
def sortByStoredAt (md : List (String × CacheEntry)) : List (String × CacheEntry) :=
  sortLt (fun p q => decide (p.2.timestamp < q.2.timestamp)) md

/-- `BuildCache._cleanup_old_cache`: when the total recorded size exceeds
the configured maximum, evict oldest-first until at most 80% of the maximum
remains, then persist the store. -/
def cleanupOldCache (cfg : ProConfig) (st : BuildState) : BuildState :=
  let total := totalSizeMB st.metadata
  if cfg.maxSizeMB < total then
    let sortedEntries := sortByStoredAt st.metadata
    let p := evictLoop cfg sortedEntries total st.metadata st.fs
    saveMetadata { metadata := p.1, fs := p.2, saved := st.saved }
  else st

/-- `BuildCache.cache_build(script_path, pyinstaller_command,
build_output_path)`: copy the produced artifact into the cache under a fresh
`cache_id`, record the entry, persist, and run the eviction check.  `false`
is returned — with the state unchanged — when pro features are disabled,
when the output path does not exist, or when the copy raises. -/
def cacheBuild (cfg : ProConfig) (hm : HashModel) (now : ℚ) (st : BuildState)
    (scriptPath cmd outPath : String) : Bool × BuildState :=
  if !cfg.proFeaturesEnabled || !pathExists st.fs outPath then (false, st)
  else
    let signature := getBuildSignature hm st.fs scriptPath cmd
    let cacheId := "build_" ++ signature.take 16 ++ "_" ++ toString (Rat.floor now)
    let cachePath := joinPath cfg.cacheDir cacheId
    match fsCopy st.fs outPath cachePath with
    | none => (false, st)
    | some fs1 =>
      let entry : CacheEntry :=
        { cacheId := cacheId
          timestamp := now
          scriptPath := scriptPath
          command := cmd
          sizeMB := (directorySize fs1 cachePath : ℚ) / (1024 * 1024) }
      let st1 := saveMetadata
        { metadata := insertKey st.metadata signature entry, fs := fs1, saved := st.saved }
      (true, cleanupOldCache cfg st1)

/-- The record returned by `BuildCache.get_cache_stats`.  (`total_size_mb`
is reported unrounded; the code's `round(x, 2)` is display formatting on a
float and no claim refers to it.) -/
structure CacheStats where
  totalEntries : Nat
  totalSizeMBStat : ℚ
  cacheDirectory : String
  maxSizeMBStat : ℚ
  retentionDaysStat : ℚ
deriving DecidableEq

/-- `BuildCache.get_cache_stats`. -/
def getCacheStats (cfg : ProConfig) (st : BuildState) : CacheStats :=
  { totalEntries := st.metadata.length
    totalSizeMBStat := totalSizeMB st.metadata
    cacheDirectory := cfg.cacheDir
    maxSizeMBStat := cfg.maxSizeMB
    retentionDaysStat := cfg.retentionDays }

/-!
## Import Discoverer (`HiddenImportsDetector`)

The AST / regex extraction of import statements from a file's text
(`ast.parse` + `ast.walk`, with the `_scan_imports_regex` fallback) is a
leaf the claims do not touch: the model records, for each source file, the
list of top-level module names that extraction yields.  Reading a file is
total here (the code reads with `errors='ignore'` and catches per-file
exceptions, in which case the file merely contributes nothing).
-/

/-- The directory neighbourhood the detector works in: the directory `path`
containing the entry script and its sibling files; each entry is a file name
together with the top-level module names import extraction yields for it. -/
structure PyDir where
  path : String
  entries : List (String × List String)

/-- The running environment of `_filter_imports`: `sys.stdlib_module_names`,
`sys.builtin_module_names`, and whether `__import__(name)` succeeds. -/
structure PyEnv where
  stdlibModules : List String
  builtinModules : List String
  importable : String → Bool

/-- The detector's working state: `self.detected_imports` and
`self.scanned_files` (both Python sets; the lists carry no duplicates when
updated through the operations below). -/
structure ScanState where
  detected : List String
  scanned : List String
deriving DecidableEq

/-- Add names to the `detected_imports` set (`set.add` / `set.update`):
a name already present is not added again. -/
def addDetected (names : List String) (l : List String) : List String :=
  names.foldl (fun acc n => if n ∈ acc then acc else n :: acc) l

/-- `os.path.basename`: the part after the last slash. -/
def baseName (p : String) : String :=
  (p.splitOn "/").getLastD p

/-- `os.path.dirname`: the part before the last slash (`""` if none). -/
def dirName (p : String) : String :=
  let parts := p.splitOn "/"
  if parts.length ≤ 1 then "" else String.intercalate "/" parts.dropLast

/-- `os.listdir(q)`: the file names of the modelled directory when `q` is
its path, nothing otherwise. -/
def dirListing (d : PyDir) (q : String) : List String :=
  if q = d.path then d.entries.map (fun e => e.1) else []

/-- `os.path.exists(p)` in the detector's world: `p` is a file of the
modelled directory. -/
def dirHasFile (d : PyDir) (p : String) : Bool :=
  d.entries.any (fun e => joinPath d.path e.1 == p)

/-- The import names extraction yields for the file at path `p`. -/
def importsAt (d : PyDir) (p : String) : List String :=
  match d.entries.find? (fun e => joinPath d.path e.1 == p) with
  | some e => e.2
  | none => []

/-- `HiddenImportsDetector._scan_file(file_path, depth)`.

The Python function recurses with `depth + 1` and returns at once when
`depth > config.HIDDEN_IMPORTS_SCAN_DEPTH`; here the remaining depth budget
`r = HIDDEN_IMPORTS_SCAN_DEPTH + 1 - depth` decreases to `0` instead, which
is the same guard and makes the recursion structural — the code's own
termination argument.  Guard order is the code's: depth/visited check, then
existence and `.py` suffix, then mark visited, extract imports, and scan the
sibling `.py` files of the file's directory. -/
def scanGo (d : PyDir) : Nat → String → ScanState → ScanState
  | 0, _, st => st
  | r + 1, filePath, st =>
    if filePath ∈ st.scanned then st
    else if !dirHasFile d filePath || !filePath.endsWith ".py" then st
    else
      let st1 : ScanState :=
        { detected := addDetected (importsAt d filePath) st.detected
          scanned := filePath :: st.scanned }
      let base := dirName filePath
      (dirListing d base).foldl
        (fun s item =>
          if item.endsWith ".py" && !(item == baseName filePath)
          then scanGo d r (joinPath base item) s
          else s) st1

/-- The static expansion table of `_add_common_hidden_imports`: the
commonly missed submodules added when a known-troublesome module was
detected. -/
def knownSubmodules (m : String) : List String :=
  if m == "tkinter" then ["tkinter.ttk", "tkinter.messagebox", "tkinter.filedialog"]
  else if m.startsWith "PyQt" then [m ++ ".QtCore", m ++ ".QtGui", m ++ ".QtWidgets"]
  else if m == "matplotlib" then ["matplotlib.backends", "matplotlib.backends.backend_tkagg"]
  else if m == "numpy" then ["numpy.core", "numpy.lib"]
  else if m == "pandas" then ["pandas.io", "pandas.plotting"]
  else []

/-- `HiddenImportsDetector._add_common_hidden_imports`: for each configured
common module, if some detected import starts with it, add its fixed
submodule expansion to the detected set. -/
def addCommonHiddenImports (cfg : ProConfig) (st : ScanState) : ScanState :=
  cfg.commonModules.foldl
    (fun s m =>
      if s.detected.any (fun imp => imp.startsWith m)
      then { s with detected := addDetected (knownSubmodules m) s.detected }
      else s) st

/-- The fixed exclusion list of `_filter_imports`. -/
def metaNames : List String := ["__future__", "__main__", "typing"]

/-- One import survives `_filter_imports`: not in the standard library, not
built in, not a meta-name, and actually importable in the current runtime. -/
def keepImport (env : PyEnv) (imp : String) : Bool :=
  !env.stdlibModules.contains imp && !env.builtinModules.contains imp &&
    !metaNames.contains imp && env.importable imp

/-- String comparator for `sorted` on module-name strings. -/
def sortStrings (l : List String) : List String :=
  sortLt (fun a b => decide (a < b)) l

/-- `HiddenImportsDetector._filter_imports`: keep the surviving imports,
then `sorted(list(set(filtered)))` — deduplicate and sort ascending. -/
def filterImports (env : PyEnv) (imports : List String) : List String :=
  sortStrings (List.dedup (imports.filter (keepImport env)))

/-- `HiddenImportsDetector.detect_hidden_imports(script_path)`: returns the
filtered import list together with the detector's state after the call
(`self.detected_imports` / `self.scanned_files` persist on the instance).
When auto-detection is disabled the call returns `[]` without touching the
state; otherwise both sets are cleared, the entry script is scanned at
depth 0, the common hidden imports are expanded, and the result filtered. -/
def detectHiddenImports (cfg : ProConfig) (env : PyEnv) (d : PyDir)
    (scriptPath : String) (st : ScanState) : List String × ScanState :=
  if !cfg.hiddenImportsAutoDetect then ([], st)
  else
    let st1 := scanGo d (cfg.scanDepth + 1) scriptPath { detected := [], scanned := [] }
    let st2 := addCommonHiddenImports cfg st1
    (filterImports env st2.detected, st2)

/-! ## Helper lemmas on the dictionary model -/

theorem lookupKey_mem {α : Type} {l : List (String × α)} {k : String} {v : α}
    (h : lookupKey l k = some v) : (k, v) ∈ l := by
  unfold lookupKey at h
  cases hf : l.find? (fun p => p.1 == k) with
  | none => simp [hf] at h
  | some p =>
    have hp := List.find?_some hf
    have hmem := List.mem_of_find?_eq_some hf
    simp [hf] at h
    have : p.1 = k := by simpa using hp
    cases p with
    | mk a b => cases h; cases this; exact hmem

theorem length_eraseKey_add_one {α : Type} {l : List (String × α)} {k : String} {v : α}
    (h : lookupKey l k = some v) : (eraseKey l k).length + 1 = l.length := by
  exact List.length_eraseP_add_one (lookupKey_mem h) (by simp)

theorem lookupKey_insertKey_self {α : Type} (l : List (String × α)) (k : String) (v : α) :
    lookupKey (insertKey l k v) k = some v := by
  induction l with
  | nil => simp [insertKey, lookupKey]
  | cons p rest ih =>
    by_cases h : p.1 = k
    · cases p; simp_all [insertKey, lookupKey, List.find?]
    · cases p with
      | mk a b =>
        simp only at h
        simp only [insertKey, if_neg h, lookupKey, List.find?]
        have : (a == k) = false := by simpa using h
        simp only [this]
        exact ih

theorem mem_keys_insertKey {α : Type} {l : List (String × α)} {k x : String} {v : α} :
    x ∈ (insertKey l k v).map Prod.fst → x = k ∨ x ∈ l.map Prod.fst := by
  induction l with
  | nil => simp [insertKey]
  | cons p rest ih =>
    by_cases h : p.1 = k
    · cases p; simp_all [insertKey]
    · cases p with
      | mk a b =>
        simp only at h
        simp only [insertKey, if_neg h, List.map_cons, List.mem_cons]
        rintro (rfl | hx)
        · right; simp
        · rcases ih hx with h1 | h2
          · left; exact h1
          · right; simp [h2]

theorem keys_nodup_insertKey {α : Type} {l : List (String × α)} (k : String) (v : α)
    (h : (l.map Prod.fst).Nodup) : ((insertKey l k v).map Prod.fst).Nodup := by
  induction l with
  | nil => simp [insertKey]
  | cons p rest ih =>
    by_cases hk : p.1 = k
    · cases p; simp_all [insertKey]
    · cases p with
      | mk a b =>
        simp only at hk
        simp only [List.map_cons, List.nodup_cons] at h
        simp only [insertKey, if_neg hk, List.map_cons, List.nodup_cons]
        refine ⟨fun hmem => ?_, ih h.2⟩
        rcases mem_keys_insertKey hmem with rfl | h2
        · exact hk rfl
        · exact h.1 h2

/-! ## C1: lookup on an unreadable script -/

/-- Concrete run for C1: a script that exists but cannot be read. -/
def c1Cfg : ProConfig :=
  { proFeaturesEnabled := true, cacheDir := "cache", maxSizeMB := 1024,
    retentionDays := 30, hiddenImportsAutoDetect := true, scanDepth := 3,
    commonModules := [] }

/-- Hash environment for C1 (the file hash is never consulted because the
script cannot be read; the signature hash is taken literally). -/
def c1Hm : HashModel := { fileHash := fun _ => "H", strHash := id }

/-- The unreadable script file (exists, `open` raises `IOError`). -/
def c1Script : FsNode := { isDir := false, readable := false, content := [1, 2], mtime := "5" }

/-- The cached artifact directory for C1. -/
def c1Artifact : FsNode := { isDir := true, readable := false, content := [9], mtime := "7" }

/-- The metadata entry stored under the degenerate signature that
`_get_build_signature` produces when `_get_file_hash` returns `""`. -/
def c1Entry : CacheEntry :=
  { cacheId := "a", timestamp := 0, scriptPath := "s.py", command := "cmd", sizeMB := 0 }

/-- Cache state for C1: one valid, unexpired entry whose directory exists,
keyed by the empty-hash signature of the unreadable script. -/
def c1St : BuildState :=
  { metadata := [(":5:cmd", c1Entry)]
    fs := { nodes := [("s.py", c1Script), ("cache/a", c1Artifact)], badDst := [] }
    saved := [(":5:cmd", c1Entry)] }

/-- C1: the claim says a lookup on a script whose bytes cannot be opened is
an unconditional miss, whatever the metadata store contains.  The code
instead lets `_get_file_hash` return `""`, still computes a signature from
`"" ++ ":" ++ mtime ++ ":" ++ command`, and serves a hit when the store has
a matching entry: here hashing fails (`getFileHash = ""`) and the lookup
nevertheless returns the cached artifact path. -/
theorem c1_unreadable_script_lookup_hits :
    getFileHash c1Hm c1St.fs "s.py" = "" ∧
    getCachedBuild c1Cfg c1Hm 0 c1St "s.py" "cmd" = (some "cache/a", c1St) := by
  with_unfolding_all decide

/-! ## C6: expired entries are misses -/

/-- C6: an entry whose age `now - storedAt` has reached the retention
period is a miss — even when its artifact directory still exists — and the
state is left untouched (the entry is not deleted eagerly). -/
theorem c6_expired_entry_is_miss (cfg : ProConfig) (hm : HashModel) (now : ℚ)
    (st : BuildState) (sp cmd : String) (entry : CacheEntry)
    (hsig : lookupKey st.metadata (getBuildSignature hm st.fs sp cmd) = some entry)
    (hexp : retentionSeconds cfg.retentionDays ≤ now - entry.timestamp) :
    getCachedBuild cfg hm now st sp cmd = (none, st) := by
  by_cases hpro : cfg.proFeaturesEnabled
  · simp only [getCachedBuild, hpro, Bool.not_true, Bool.false_eq_true, if_false, hsig]
    rw [if_neg (not_lt.mpr hexp)]
  · simp [getCachedBuild, hpro]

/-- Expired-entry state for the C6 witness: stored at time `0`, looked up
at time `3000000 > 30 * 86400`, artifact directory still on disk. -/
def c6St : BuildState :=
  { metadata := [(":5:cmd", c1Entry)]
    fs := { nodes := [("s.py", c1Script), ("cache/a", c1Artifact)], badDst := [] }
    saved := [(":5:cmd", c1Entry)] }

/-- Witness for C6 at a concrete expired entry whose directory exists. -/
theorem c6_expired_entry_is_miss_witness :
    lookupKey c6St.metadata (getBuildSignature c1Hm c6St.fs "s.py" "cmd") = some c1Entry ∧
    retentionSeconds c1Cfg.retentionDays ≤ 3000000 - c1Entry.timestamp ∧
    pathExists c6St.fs (cachePathOfEntry c1Cfg c1Entry) = true ∧
    getCachedBuild c1Cfg c1Hm 3000000 c6St "s.py" "cmd" = (none, c6St) :=
  ⟨by with_unfolding_all decide, by with_unfolding_all decide, by with_unfolding_all decide,
    c6_expired_entry_is_miss c1Cfg c1Hm 3000000 c6St "s.py" "cmd" c1Entry
      (by with_unfolding_all decide) (by with_unfolding_all decide)⟩

/-! ## C5: failed cache_build leaves the store unchanged -/

/-- C5: `cache_build` returns `false` with the whole state (in particular
the metadata mapping) unchanged when the build output path does not exist,
and likewise when copying the artifact into the cache raises; the metadata
entry is only ever written after a successful copy. -/
theorem c5_cache_build_failure_leaves_state (cfg : ProConfig) (hm : HashModel)
    (now : ℚ) (st : BuildState) (sp cmd outPath : String)
    (h : pathExists st.fs outPath = false ∨
      fsCopy st.fs outPath (joinPath cfg.cacheDir
        ("build_" ++ (getBuildSignature hm st.fs sp cmd).take 16 ++ "_" ++
          toString (Rat.floor now))) = none) :
    cacheBuild cfg hm now st sp cmd outPath = (false, st) := by
  by_cases hpro : cfg.proFeaturesEnabled
  · rcases h with hout | hcopy
    · simp [cacheBuild, hout]
    · by_cases hout : pathExists st.fs outPath
      · simp only [cacheBuild, hpro, hout, Bool.not_true, Bool.or_self, Bool.false_eq_true,
          if_false, hcopy]
      · simp [cacheBuild, hout]
  · simp [cacheBuild, hpro]

/-- State for the C5 witness: the output path `missing` does not exist, and
copies into the cache directory fail (`badDst`), so both failure modes of
the claim can be exercised. -/
def c5St : BuildState :=
  { metadata := [(":5:cmd", c1Entry)]
    fs := { nodes := [("s.py", c1Script), ("out", c1Artifact)], badDst := ["cache/build_:5:cmd_0"] }
    saved := [(":5:cmd", c1Entry)] }

/-- Witness for C5: one application per failure mode — a missing output
path, and a copy that raises (unwritable destination). -/
theorem c5_cache_build_failure_leaves_state_witness :
    (pathExists c5St.fs "missing" = false ∧
      cacheBuild c1Cfg c1Hm 0 c5St "s.py" "cmd" "missing" = (false, c5St)) ∧
    (fsCopy c5St.fs "out" (joinPath c1Cfg.cacheDir
        ("build_" ++ (getBuildSignature c1Hm c5St.fs "s.py" "cmd").take 16 ++ "_" ++
          toString (Rat.floor (0 : ℚ)))) = none ∧
      cacheBuild c1Cfg c1Hm 0 c5St "s.py" "cmd" "out" = (false, c5St)) :=
  ⟨⟨by with_unfolding_all decide,
    c5_cache_build_failure_leaves_state c1Cfg c1Hm 0 c5St "s.py" "cmd" "missing"
      (Or.inl (by with_unfolding_all decide))⟩,
   ⟨by with_unfolding_all decide,
    c5_cache_build_failure_leaves_state c1Cfg c1Hm 0 c5St "s.py" "cmd" "out"
      (Or.inr (by with_unfolding_all decide))⟩⟩

/-! ## C4: self-healing on a missing artifact directory -/

/-- C4: a stored, unexpired entry whose artifact directory is gone makes
the next lookup a miss; exactly that signature's record is deleted, the
store is persisted, and the reported entry count drops by one. -/
theorem c4_stale_entry_selfheal (cfg : ProConfig) (hm : HashModel) (now : ℚ)
    (st : BuildState) (sp cmd : String) (entry : CacheEntry)
    (hpro : cfg.proFeaturesEnabled = true)
    (hsig : lookupKey st.metadata (getBuildSignature hm st.fs sp cmd) = some entry)
    (hfresh : now - entry.timestamp < retentionSeconds cfg.retentionDays)
    (hgone : pathExists st.fs (cachePathOfEntry cfg entry) = false) :
    getCachedBuild cfg hm now st sp cmd =
      (none,
        { metadata := eraseKey st.metadata (getBuildSignature hm st.fs sp cmd)
          fs := st.fs
          saved := eraseKey st.metadata (getBuildSignature hm st.fs sp cmd) }) ∧
    (getCacheStats cfg (getCachedBuild cfg hm now st sp cmd).2).totalEntries + 1 =
      (getCacheStats cfg st).totalEntries := by
  have hmain : getCachedBuild cfg hm now st sp cmd =
      (none,
        { metadata := eraseKey st.metadata (getBuildSignature hm st.fs sp cmd)
          fs := st.fs
          saved := eraseKey st.metadata (getBuildSignature hm st.fs sp cmd) }) := by
    simp only [getCachedBuild, hpro, Bool.not_true, Bool.false_eq_true, if_false, hsig]
    rw [if_pos hfresh]
    simp [hgone, saveMetadata]
  refine ⟨hmain, ?_⟩
  rw [hmain]
  simpa [getCacheStats] using length_eraseKey_add_one hsig

/-- State for the C4 witness: a fresh entry whose directory was removed
out of band. -/
def c4St : BuildState :=
  { metadata := [(":5:cmd", c1Entry)]
    fs := { nodes := [("s.py", c1Script)], badDst := [] }
    saved := [(":5:cmd", c1Entry)] }

/-- Witness for C4 at a concrete stale entry. -/
theorem c4_stale_entry_selfheal_witness :
    c1Cfg.proFeaturesEnabled = true ∧
    lookupKey c4St.metadata (getBuildSignature c1Hm c4St.fs "s.py" "cmd") = some c1Entry ∧
    (0 : ℚ) - c1Entry.timestamp < retentionSeconds c1Cfg.retentionDays ∧
    pathExists c4St.fs (cachePathOfEntry c1Cfg c1Entry) = false ∧
    (getCachedBuild c1Cfg c1Hm 0 c4St "s.py" "cmd" =
      (none,
        { metadata := eraseKey c4St.metadata (getBuildSignature c1Hm c4St.fs "s.py" "cmd")
          fs := c4St.fs
          saved := eraseKey c4St.metadata (getBuildSignature c1Hm c4St.fs "s.py" "cmd") }) ∧
      (getCacheStats c1Cfg (getCachedBuild c1Cfg c1Hm 0 c4St "s.py" "cmd").2).totalEntries + 1 =
        (getCacheStats c1Cfg c4St).totalEntries) :=
  ⟨by with_unfolding_all decide, by with_unfolding_all decide, by with_unfolding_all decide,
    by with_unfolding_all decide,
    c4_stale_entry_selfheal c1Cfg c1Hm 0 c4St "s.py" "cmd" c1Entry
      (by with_unfolding_all decide) (by with_unfolding_all decide)
      (by with_unfolding_all decide) (by with_unfolding_all decide)⟩


/-! ## C2: metadata record and artifact directory lifecycle -/

/-- Readable script for the C2 run. -/
def c2Script : FsNode := { isDir := false, readable := true, content := [1], mtime := "5" }

/-- Produced build output (a one-file build, empty content) for the C2 run. -/
def c2Out : FsNode := { isDir := false, readable := true, content := [], mtime := "9" }

/-- Initial state for C2: empty cache, script and build output on disk. -/
def c2St0 : BuildState :=
  { metadata := []
    fs := { nodes := [("s.py", c2Script), ("out", c2Out)], badDst := [] }
    saved := [] }

/-- First `cache_build`, at time `0`. -/
def c2Run1 : Bool × BuildState := cacheBuild c1Cfg c1Hm 0 c2St0 "s.py" "cmd" "out"

/-- Second `cache_build` for the same script and invocation — hence the
same signature — at time `1` (e.g. a rebuild after the first entry
expired). -/
def c2Run2 : Bool × BuildState := cacheBuild c1Cfg c1Hm 1 c2Run1.2 "s.py" "cmd" "out"

/-- C2: the claim says that whenever a metadata record is removed or
replaced, the directory of its old `cacheId` is removed too.  The code's
`cache_build` on an already-present signature overwrites the record with a
fresh `cacheId` and never deletes the old directory: after the second run
both builds succeeded, the first run's directory `cache/build_H:5:cmd_0`
still exists, yet no metadata record references it any more — an orphaned
artifact that only `clear_cache` would reclaim. -/
theorem c2_replaced_entry_orphans_directory :
    c2Run1.1 = true ∧ c2Run2.1 = true ∧
    pathExists c2Run2.2.fs "cache/build_H:5:cmd_0" = true ∧
    lookupKey c2Run2.2.metadata "H:5:cmd" =
      some { cacheId := "build_H:5:cmd_1", timestamp := 1, scriptPath := "s.py",
             command := "cmd", sizeMB := 0 } ∧
    (∀ p ∈ c2Run2.2.metadata, p.2.cacheId ≠ "build_H:5:cmd_0") := by
  set_option maxRecDepth 40000 in
  with_unfolding_all decide

/-! ## Sorting and eviction machinery for C3 -/

theorem insertLt_perm {α : Type} (lt : α → α → Bool) (x : α) (l : List α) :
    List.Perm (insertLt lt x l) (x :: l) := by
  induction l with
  | nil => exact List.Perm.refl _
  | cons q rest ih =>
    by_cases h : lt q x
    · simp only [insertLt, h, if_true]
      exact (ih.cons q).trans (List.Perm.swap x q rest)
    · simp only [insertLt, h, if_false]
      exact List.Perm.refl _

theorem sortLt_perm {α : Type} (lt : α → α → Bool) (l : List α) :
    List.Perm (sortLt lt l) l := by
  induction l with
  | nil => exact List.Perm.refl _
  | cons x xs ih => exact (insertLt_perm lt x (sortLt lt xs)).trans (ih.cons x)

theorem insertLt_pairwise {α : Type} {lt : α → α → Bool}
    (hasym : ∀ a b, lt a b = true → lt b a = false)
    (hneg : ∀ a b c, lt a b = false → lt b c = false → lt a c = false)
    (x : α) {l : List α} (hl : l.Pairwise (fun a b => lt b a = false)) :
    (insertLt lt x l).Pairwise (fun a b => lt b a = false) := by
  induction l with
  | nil => simp [insertLt]
  | cons q rest ih =>
    rcases List.pairwise_cons.mp hl with ⟨hq, hrest⟩
    by_cases h : lt q x
    · simp only [insertLt, h, if_true]
      refine List.pairwise_cons.mpr ⟨?_, ih hrest⟩
      intro y hy
      rcases List.mem_cons.mp ((insertLt_perm lt x rest).mem_iff.mp hy) with rfl | hmem
      · exact hasym q y h
      · exact hq y hmem
    · simp only [insertLt, h, if_false]
      have hqx : lt q x = false := by simpa using h
      refine List.pairwise_cons.mpr ⟨?_, hl⟩
      intro y hy
      rcases List.mem_cons.mp hy with rfl | hmem
      · exact hqx
      · exact hneg y q x (hq y hmem) hqx

theorem sortLt_pairwise {α : Type} {lt : α → α → Bool}
    (hasym : ∀ a b, lt a b = true → lt b a = false)
    (hneg : ∀ a b c, lt a b = false → lt b c = false → lt a c = false)
    (l : List α) : (sortLt lt l).Pairwise (fun a b => lt b a = false) := by
  induction l with
  | nil => simp [sortLt]
  | cons x xs ih => exact insertLt_pairwise hasym hneg x ih

theorem sortByStoredAt_perm (md : List (String × CacheEntry)) :
    List.Perm (sortByStoredAt md) md :=
  sortLt_perm _ md

theorem sortByStoredAt_pairwise (md : List (String × CacheEntry)) :
    (sortByStoredAt md).Pairwise (fun p q => p.2.timestamp ≤ q.2.timestamp) := by
  have h := @sortLt_pairwise (String × CacheEntry)
      (fun p q => decide (p.2.timestamp < q.2.timestamp)) ?_ ?_ md
  · refine h.imp ?_
    intro a b hab
    exact not_lt.mp (of_decide_eq_false hab)
  · intro a b hab
    exact decide_eq_false (not_lt.mpr (le_of_lt (of_decide_eq_true hab)))
  · intro a b c hab hbc
    have h1 := not_lt.mp (of_decide_eq_false hab)
    have h2 := not_lt.mp (of_decide_eq_false hbc)
    exact decide_eq_false (not_lt.mpr (h2.trans h1))

theorem stopIndex_le_length (cfg : ProConfig) :
    ∀ (l : List (String × CacheEntry)) (t : ℚ), stopIndex cfg t l ≤ l.length := by
  intro l
  induction l with
  | nil => intro t; simp [stopIndex]
  | cons p rest ih =>
    intro t
    by_cases h : t - p.2.sizeMB ≤ (0.8 : ℚ) * cfg.maxSizeMB
    · simp [stopIndex, h]
    · simp only [stopIndex, if_neg h, List.length_cons]
      have := ih (t - p.2.sizeMB)
      omega

theorem stopIndex_spec (cfg : ProConfig) :
    ∀ (l : List (String × CacheEntry)) (t : ℚ),
      t - totalSizeMB (l.take (stopIndex cfg t l)) ≤ (0.8 : ℚ) * cfg.maxSizeMB ∨
      stopIndex cfg t l = l.length := by
  intro l
  induction l with
  | nil => intro t; right; simp [stopIndex]
  | cons p rest ih =>
    intro t
    by_cases h : t - p.2.sizeMB ≤ (0.8 : ℚ) * cfg.maxSizeMB
    · left
      simp only [stopIndex, if_pos h, List.take_succ_cons, List.take_zero, totalSizeMB,
        List.map_cons, List.map_nil, List.sum_cons, List.sum_nil, add_zero]
      exact h
    · rcases ih (t - p.2.sizeMB) with hle | hlen
      · left
        simp only [stopIndex, if_neg h]
        rw [show 1 + stopIndex cfg (t - p.2.sizeMB) rest =
          stopIndex cfg (t - p.2.sizeMB) rest + 1 by omega]
        simp only [List.take_succ_cons, totalSizeMB, List.map_cons, List.sum_cons]
        have : t - (p.2.sizeMB + (((rest.take (stopIndex cfg (t - p.2.sizeMB) rest)).map
            (fun q => q.2.sizeMB)).sum)) =
            t - p.2.sizeMB - totalSizeMB (rest.take (stopIndex cfg (t - p.2.sizeMB) rest)) := by
          unfold totalSizeMB; ring
        rw [this]
        exact hle
      · right
        simp only [stopIndex, if_neg h, hlen, List.length_cons]
        omega

theorem stopIndex_min (cfg : ProConfig) :
    ∀ (l : List (String × CacheEntry)) (t : ℚ) (j : ℕ),
      (0.8 : ℚ) * cfg.maxSizeMB < t → j < stopIndex cfg t l →
      (0.8 : ℚ) * cfg.maxSizeMB < t - totalSizeMB (l.take j) := by
  intro l
  induction l with
  | nil => intro t j _ hj; simp [stopIndex] at hj
  | cons p rest ih =>
    intro t j ht hj
    by_cases h : t - p.2.sizeMB ≤ (0.8 : ℚ) * cfg.maxSizeMB
    · simp only [stopIndex, if_pos h] at hj
      interval_cases j
      simpa [totalSizeMB] using ht
    · simp only [stopIndex, if_neg h] at hj
      match j with
      | 0 => simpa [totalSizeMB] using ht
      | j' + 1 =>
        have hj' : j' < stopIndex cfg (t - p.2.sizeMB) rest := by omega
        have := ih (t - p.2.sizeMB) j' (lt_of_not_le h) hj'
        simp only [List.take_succ_cons, totalSizeMB, List.map_cons, List.sum_cons]
        have heq : t - (p.2.sizeMB + ((rest.take j').map (fun q => q.2.sizeMB)).sum) =
            t - p.2.sizeMB - totalSizeMB (rest.take j') := by
          unfold totalSizeMB; ring
        rw [heq]
        exact this

theorem evictLoop_eq (cfg : ProConfig) :
    ∀ (l : List (String × CacheEntry)) (t : ℚ) (md : List (String × CacheEntry)) (fs : Fs),
      evictLoop cfg l t md fs =
        ((l.take (stopIndex cfg t l)).foldl (fun m q => eraseKey m q.1) md,
         (l.take (stopIndex cfg t l)).foldl
           (fun f q => fsRemove f (cachePathOfEntry cfg q.2)) fs) := by
  intro l
  induction l with
  | nil => intro t md fs; simp [evictLoop, stopIndex]
  | cons p rest ih =>
    intro t md fs
    cases p with
    | mk sig e =>
      by_cases h : t - e.sizeMB ≤ (0.8 : ℚ) * cfg.maxSizeMB
      · simp [evictLoop, stopIndex, h]
      · simp only [evictLoop, stopIndex, if_neg h]
        rw [show (1 + stopIndex cfg (t - e.sizeMB) rest) =
          stopIndex cfg (t - e.sizeMB) rest + 1 by omega]
        simp only [List.take_succ_cons, List.foldl_cons]
        exact ih (t - e.sizeMB) (eraseKey md sig) (fsRemove fs (cachePathOfEntry cfg e))

theorem pairwise_keyUnique {α : Type} {l : List (String × α)}
    (hnd : (l.map Prod.fst).Nodup) (k : String) :
    l.Pairwise (fun a b => (a.1 == k) = true → (b.1 == k) = true → False) := by
  have h := List.pairwise_map.mp hnd
  refine h.imp ?_
  intro a b hab h1 h2
  exact hab (by rw [eq_of_beq h1, eq_of_beq h2])

theorem eraseKey_perm_cons {α : Type} {md : List (String × α)} {p : String × α}
    {rest : List (String × α)} (hnd : (md.map Prod.fst).Nodup)
    (hperm : List.Perm md (p :: rest)) : List.Perm (eraseKey md p.1) rest := by
  have h := List.Perm.eraseP (fun q => q.1 == p.1) (pairwise_keyUnique hnd p.1) hperm
  have hcons : (p :: rest).eraseP (fun q => q.1 == p.1) = rest := by
    rw [List.eraseP_cons_of_pos]
    simp
  rw [eraseKey]
  rw [hcons] at h
  exact h

theorem keys_nodup_eraseKey {α : Type} {md : List (String × α)} (k : String)
    (hnd : (md.map Prod.fst).Nodup) : ((eraseKey md k).map Prod.fst).Nodup :=
  ((List.eraseP_sublist md).map Prod.fst).nodup hnd

theorem foldl_eraseKey_perm {α : Type} :
    ∀ (pre : List (String × α)) (md rest : List (String × α)),
      (md.map Prod.fst).Nodup → List.Perm md (pre ++ rest) →
      List.Perm (pre.foldl (fun m q => eraseKey m q.1) md) rest := by
  intro pre
  induction pre with
  | nil => intro md rest _ hperm; simpa using hperm
  | cons p pre' ih =>
    intro md rest hnd hperm
    simp only [List.foldl_cons]
    have h1 : List.Perm (eraseKey md p.1) (pre' ++ rest) :=
      eraseKey_perm_cons hnd (by simpa using hperm)
    exact ih (eraseKey md p.1) rest (keys_nodup_eraseKey p.1 hnd) h1

theorem totalSizeMB_congr {md md' : List (String × CacheEntry)}
    (h : List.Perm md md') : totalSizeMB md = totalSizeMB md' := by
  unfold totalSizeMB
  exact (h.map (fun p => p.2.sizeMB)).sum_eq

theorem totalSizeMB_append (a b : List (String × CacheEntry)) :
    totalSizeMB (a ++ b) = totalSizeMB a + totalSizeMB b := by
  simp [totalSizeMB]

/-- The entries `_cleanup_old_cache` evicts: the prefix of the
oldest-first-sorted entry list up to the stopping point of the loop. -/
def evictedEntries (cfg : ProConfig) (st : BuildState) : List (String × CacheEntry) :=
  (sortByStoredAt st.metadata).take
    (stopIndex cfg (totalSizeMB st.metadata) (sortByStoredAt st.metadata))

/-- The entries `_cleanup_old_cache` keeps. -/
def keptEntries (cfg : ProConfig) (st : BuildState) : List (String × CacheEntry) :=
  (sortByStoredAt st.metadata).drop
    (stopIndex cfg (totalSizeMB st.metadata) (sortByStoredAt st.metadata))

theorem cleanup_eq_of_over (cfg : ProConfig) (st : BuildState)
    (hov : cfg.maxSizeMB < totalSizeMB st.metadata) :
    cleanupOldCache cfg st = saveMetadata
      { metadata := (evictedEntries cfg st).foldl (fun m q => eraseKey m q.1) st.metadata
        fs := (evictedEntries cfg st).foldl
          (fun f q => fsRemove f (cachePathOfEntry cfg q.2)) st.fs
        saved := st.saved } := by
  simp only [cleanupOldCache, if_pos hov, evictLoop_eq, evictedEntries]

theorem cleanup_metadata_perm (cfg : ProConfig) (st : BuildState)
    (hnd : (st.metadata.map Prod.fst).Nodup)
    (hov : cfg.maxSizeMB < totalSizeMB st.metadata) :
    List.Perm (cleanupOldCache cfg st).metadata (keptEntries cfg st) := by
  rw [cleanup_eq_of_over cfg st hov]
  have hperm : List.Perm st.metadata (evictedEntries cfg st ++ keptEntries cfg st) := by
    rw [evictedEntries, keptEntries, List.take_append_drop]
    exact (sortByStoredAt_perm st.metadata).symm
  exact foldl_eraseKey_perm (evictedEntries cfg st) st.metadata (keptEntries cfg st) hnd hperm

theorem cleanup_total_le_frac (cfg : ProConfig) (st : BuildState)
    (hmax : 0 ≤ cfg.maxSizeMB) (hnd : (st.metadata.map Prod.fst).Nodup)
    (hov : cfg.maxSizeMB < totalSizeMB st.metadata) :
    totalSizeMB (cleanupOldCache cfg st).metadata ≤ (0.8 : ℚ) * cfg.maxSizeMB := by
  have htot := totalSizeMB_congr (cleanup_metadata_perm cfg st hnd hov)
  rw [htot]
  have hsplit : totalSizeMB st.metadata =
      totalSizeMB (evictedEntries cfg st) + totalSizeMB (keptEntries cfg st) := by
    have hperm : List.Perm st.metadata (evictedEntries cfg st ++ keptEntries cfg st) := by
      rw [evictedEntries, keptEntries, List.take_append_drop]
      exact (sortByStoredAt_perm st.metadata).symm
    rw [totalSizeMB_congr hperm, totalSizeMB_append]
  rcases stopIndex_spec cfg (sortByStoredAt st.metadata) (totalSizeMB st.metadata) with hle | hall
  · rw [show totalSizeMB ((sortByStoredAt st.metadata).take
        (stopIndex cfg (totalSizeMB st.metadata) (sortByStoredAt st.metadata))) =
        totalSizeMB (evictedEntries cfg st) from rfl] at hle
    linarith
  · have : keptEntries cfg st = [] := by
      rw [keptEntries, hall, List.drop_length]
    rw [this]
    have : totalSizeMB ([] : List (String × CacheEntry)) = 0 := by simp [totalSizeMB]
    rw [this]
    linarith

theorem cleanup_total_le (cfg : ProConfig) (st : BuildState)
    (hmax : 0 ≤ cfg.maxSizeMB) (hnd : (st.metadata.map Prod.fst).Nodup) :
    totalSizeMB (cleanupOldCache cfg st).metadata ≤ cfg.maxSizeMB := by
  by_cases hov : cfg.maxSizeMB < totalSizeMB st.metadata
  · have h1 := cleanup_total_le_frac cfg st hmax hnd hov
    linarith
  · have : cleanupOldCache cfg st = st := by
      simp only [cleanupOldCache, if_neg hov]
    rw [this]
    exact not_lt.mp hov

/-- C3: when a `cache_build` leaves the total recorded size above the
configured maximum, the eviction pass (i) removes exactly the stopping
prefix of the oldest-first-sorted entry list — deleting both the artifact
directory and the metadata record of each evicted entry — (ii) brings the
total recorded size down to at most 80% of the maximum, (iii) only evicts
entries no newer than every retained entry, and (iv) stops as soon as the
running total reaches the 80% bound (every shorter prefix leaves more than
80%).  Consequently a completed `cache_build` always ends with total
recorded size at most the maximum, so the maximum is only exceeded within
a single put. -/
theorem c3_eviction_oldest_first_bounded (cfg : ProConfig) (hm : HashModel)
    (st : BuildState) (hmax : 0 ≤ cfg.maxSizeMB)
    (hnd : (st.metadata.map Prod.fst).Nodup) :
    (cfg.maxSizeMB < totalSizeMB st.metadata →
      cleanupOldCache cfg st = saveMetadata
        { metadata := (evictedEntries cfg st).foldl (fun m q => eraseKey m q.1) st.metadata
          fs := (evictedEntries cfg st).foldl
            (fun f q => fsRemove f (cachePathOfEntry cfg q.2)) st.fs
          saved := st.saved } ∧
      totalSizeMB (cleanupOldCache cfg st).metadata ≤ (0.8 : ℚ) * cfg.maxSizeMB ∧
      (∀ p ∈ evictedEntries cfg st, ∀ q ∈ keptEntries cfg st,
        p.2.timestamp ≤ q.2.timestamp) ∧
      (∀ j < stopIndex cfg (totalSizeMB st.metadata) (sortByStoredAt st.metadata),
        (0.8 : ℚ) * cfg.maxSizeMB <
          totalSizeMB st.metadata - totalSizeMB ((sortByStoredAt st.metadata).take j))) ∧
    (∀ (now : ℚ) (sp cmd outPath : String),
      (cacheBuild cfg hm now st sp cmd outPath).1 = true →
      totalSizeMB (cacheBuild cfg hm now st sp cmd outPath).2.metadata ≤ cfg.maxSizeMB) := by
  constructor
  · intro hov
    refine ⟨cleanup_eq_of_over cfg st hov, cleanup_total_le_frac cfg st hmax hnd hov, ?_, ?_⟩
    · have hpw := sortByStoredAt_pairwise st.metadata
      rw [← List.take_append_drop
        (stopIndex cfg (totalSizeMB st.metadata) (sortByStoredAt st.metadata))
        (sortByStoredAt st.metadata)] at hpw
      exact (List.pairwise_append.mp hpw).2.2
    · intro j hj
      have ht : (0.8 : ℚ) * cfg.maxSizeMB < totalSizeMB st.metadata := by linarith
      exact stopIndex_min cfg (sortByStoredAt st.metadata) (totalSizeMB st.metadata) j ht hj
  · intro now sp cmd outPath htrue
    by_cases hcond : cfg.proFeaturesEnabled = false ∨ pathExists st.fs outPath = false
    · rcases hcond with h | h <;> simp [cacheBuild, h] at htrue
    · rcases not_or.mp hcond with ⟨h1, h2⟩
      have hpro : cfg.proFeaturesEnabled = true := by simpa using h1
      have hout : pathExists st.fs outPath = true := by simpa using h2
      cases hcopy : fsCopy st.fs outPath (joinPath cfg.cacheDir
          ("build_" ++ (getBuildSignature hm st.fs sp cmd).take 16 ++ "_" ++
            toString (Rat.floor now))) with
      | none =>
        simp [cacheBuild, hpro, hout, hcopy] at htrue
      | some fs1 =>
        simp only [cacheBuild, hpro, hout, hcopy, Bool.not_true, Bool.or_self,
          Bool.false_eq_true, if_false]
        exact cleanup_total_le cfg _ hmax (keys_nodup_insertKey _ _ hnd)

/-- Small configuration for the C3 witness: maximum cache size 4 MB. -/
def c3Cfg : ProConfig :=
  { proFeaturesEnabled := true, cacheDir := "cache", maxSizeMB := 4,
    retentionDays := 30, hiddenImportsAutoDetect := true, scanDepth := 3,
    commonModules := [] }

/-- Older entry (stored at t=2, 5 MB) for the C3 witness. -/
def c3EntryOld : CacheEntry :=
  { cacheId := "y", timestamp := 2, scriptPath := "b.py", command := "c2", sizeMB := 5 }

/-- Newer entry (stored at t=5, 3 MB) for the C3 witness. -/
def c3EntryNew : CacheEntry :=
  { cacheId := "x", timestamp := 5, scriptPath := "a.py", command := "c1", sizeMB := 3 }

/-- Oversized cache state for the C3 witness: 8 MB recorded against a 4 MB
maximum. -/
def c3St : BuildState :=
  { metadata := [("a", c3EntryNew), ("b", c3EntryOld)]
    fs := { nodes := [("cache/x", c1Artifact), ("cache/y", c1Artifact)], badDst := [] }
    saved := [("a", c3EntryNew), ("b", c3EntryOld)] }

/-- Witness for C3 at a concrete oversized store. -/
theorem c3_eviction_oldest_first_bounded_witness :
    (0 : ℚ) ≤ c3Cfg.maxSizeMB ∧ (c3St.metadata.map Prod.fst).Nodup ∧
    ((c3Cfg.maxSizeMB < totalSizeMB c3St.metadata →
      cleanupOldCache c3Cfg c3St = saveMetadata
        { metadata := (evictedEntries c3Cfg c3St).foldl (fun m q => eraseKey m q.1)
            c3St.metadata
          fs := (evictedEntries c3Cfg c3St).foldl
            (fun f q => fsRemove f (cachePathOfEntry c3Cfg q.2)) c3St.fs
          saved := c3St.saved } ∧
      totalSizeMB (cleanupOldCache c3Cfg c3St).metadata ≤ (0.8 : ℚ) * c3Cfg.maxSizeMB ∧
      (∀ p ∈ evictedEntries c3Cfg c3St, ∀ q ∈ keptEntries c3Cfg c3St,
        p.2.timestamp ≤ q.2.timestamp) ∧
      (∀ j < stopIndex c3Cfg (totalSizeMB c3St.metadata) (sortByStoredAt c3St.metadata),
        (0.8 : ℚ) * c3Cfg.maxSizeMB <
          totalSizeMB c3St.metadata - totalSizeMB ((sortByStoredAt c3St.metadata).take j))) ∧
    (∀ (now : ℚ) (sp cmd outPath : String),
      (cacheBuild c3Cfg c1Hm now c3St sp cmd outPath).1 = true →
      totalSizeMB (cacheBuild c3Cfg c1Hm now c3St sp cmd outPath).2.metadata ≤
        c3Cfg.maxSizeMB)) :=
  ⟨by with_unfolding_all decide, by with_unfolding_all decide,
    c3_eviction_oldest_first_bounded c3Cfg c1Hm c3St
      (by with_unfolding_all decide) (by with_unfolding_all decide)⟩

/-! ## C7: store-then-lookup round trip -/

/-- The fresh `cache_id` minted by `cache_build`
(`f"build_{signature[:16]}_{int(time.time())}"`). -/
def mintCacheId (hm : HashModel) (fs : Fs) (now : ℚ) (sp cmd : String) : String :=
  "build_" ++ (getBuildSignature hm fs sp cmd).take 16 ++ "_" ++ toString (Rat.floor now)

/-- The cache-local destination of the fresh artifact copy. -/
def mintCachePath (cfg : ProConfig) (hm : HashModel) (fs : Fs) (now : ℚ)
    (sp cmd : String) : String :=
  joinPath cfg.cacheDir (mintCacheId hm fs now sp cmd)

/-- The metadata entry `cache_build` records after a successful copy. -/
def mintEntry (cfg : ProConfig) (hm : HashModel) (fs : Fs) (now : ℚ)
    (sp cmd : String) (fs1 : Fs) : CacheEntry :=
  { cacheId := mintCacheId hm fs now sp cmd
    timestamp := now
    scriptPath := sp
    command := cmd
    sizeMB := (directorySize fs1 (mintCachePath cfg hm fs now sp cmd) : ℚ) / (1024 * 1024) }

theorem fsCopy_lookup_dst {fs fs1 : Fs} {src dst : String}
    (h : fsCopy fs src dst = some fs1) :
    fsLookup fs1 dst = fsLookup fs src := by
  unfold fsCopy at h
  by_cases hbad : dst ∈ fs.badDst
  · simp [hbad] at h
  · rw [if_neg hbad] at h
    cases hsrc : fsLookup fs src with
    | none => rw [hsrc] at h; simp at h
    | some n =>
      rw [hsrc] at h
      by_cases hdir : (n.isDir && pathExists fs dst) = true
      · simp [hdir] at h
      · simp only [hdir, Bool.false_eq_true, if_false, if_neg hdir, Option.some.injEq] at h
        subst h
        exact lookupKey_insertKey_self fs.nodes dst n

theorem getBuildSignature_congr (hm : HashModel) {fs fs' : Fs} (sp cmd : String)
    (h : fsLookup fs sp = fsLookup fs' sp) :
    getBuildSignature hm fs sp cmd = getBuildSignature hm fs' sp cmd := by
  unfold getBuildSignature getFileHash
  rw [h]

/-- C7 (amended): the round trip holds provided the freshly inserted entry
survives the eviction pass that `cache_build` runs — in particular whenever
the total recorded size after the insertion stays within the configured
maximum.  Then the immediate lookup with the unchanged script and
invocation is a hit on the cached copy, whose node (content included) is
exactly the node of the stored output. -/
theorem c7_store_lookup_roundtrip_amended (cfg : ProConfig) (hm : HashModel)
    (now : ℚ) (st : BuildState) (sp cmd outPath : String) (fs1 : Fs)
    (hpro : cfg.proFeaturesEnabled = true)
    (hret : 0 < cfg.retentionDays)
    (hout : pathExists st.fs outPath = true)
    (hcopy : fsCopy st.fs outPath (mintCachePath cfg hm st.fs now sp cmd) = some fs1)
    (hscript : fsLookup fs1 sp = fsLookup st.fs sp)
    (hsize : totalSizeMB (insertKey st.metadata (getBuildSignature hm st.fs sp cmd)
      (mintEntry cfg hm st.fs now sp cmd fs1)) ≤ cfg.maxSizeMB) :
    cacheBuild cfg hm now st sp cmd outPath =
      (true, saveMetadata
        { metadata := insertKey st.metadata (getBuildSignature hm st.fs sp cmd)
            (mintEntry cfg hm st.fs now sp cmd fs1)
          fs := fs1
          saved := st.saved }) ∧
    getCachedBuild cfg hm now
        (saveMetadata
          { metadata := insertKey st.metadata (getBuildSignature hm st.fs sp cmd)
              (mintEntry cfg hm st.fs now sp cmd fs1)
            fs := fs1
            saved := st.saved }) sp cmd =
      (some (mintCachePath cfg hm st.fs now sp cmd),
        saveMetadata
          { metadata := insertKey st.metadata (getBuildSignature hm st.fs sp cmd)
              (mintEntry cfg hm st.fs now sp cmd fs1)
            fs := fs1
            saved := st.saved }) ∧
    fsLookup fs1 (mintCachePath cfg hm st.fs now sp cmd) = fsLookup st.fs outPath := by
  have hdst := fsCopy_lookup_dst hcopy
  have hmain : cacheBuild cfg hm now st sp cmd outPath =
      (true, saveMetadata
        { metadata := insertKey st.metadata (getBuildSignature hm st.fs sp cmd)
            (mintEntry cfg hm st.fs now sp cmd fs1)
          fs := fs1
          saved := st.saved }) := by
    have hcopy' : fsCopy st.fs outPath (joinPath cfg.cacheDir
        ("build_" ++ (getBuildSignature hm st.fs sp cmd).take 16 ++ "_" ++
          toString (Rat.floor now))) = some fs1 := hcopy
    simp only [cacheBuild, hpro, hout, Bool.not_true, Bool.or_self, Bool.false_eq_true,
      if_false, hcopy']
    have hnoclean : ¬ (cfg.maxSizeMB < totalSizeMB (saveMetadata
        { metadata := insertKey st.metadata (getBuildSignature hm st.fs sp cmd)
            (mintEntry cfg hm st.fs now sp cmd fs1)
          fs := fs1
          saved := st.saved }).metadata) := by
      exact not_lt.mpr hsize
    show (true, cleanupOldCache cfg (saveMetadata
        { metadata := insertKey st.metadata (getBuildSignature hm st.fs sp cmd)
            (mintEntry cfg hm st.fs now sp cmd fs1)
          fs := fs1
          saved := st.saved })) =
      (true, saveMetadata
        { metadata := insertKey st.metadata (getBuildSignature hm st.fs sp cmd)
            (mintEntry cfg hm st.fs now sp cmd fs1)
          fs := fs1
          saved := st.saved })
    rw [show cleanupOldCache cfg (saveMetadata
        { metadata := insertKey st.metadata (getBuildSignature hm st.fs sp cmd)
            (mintEntry cfg hm st.fs now sp cmd fs1)
          fs := fs1
          saved := st.saved }) = saveMetadata
        { metadata := insertKey st.metadata (getBuildSignature hm st.fs sp cmd)
            (mintEntry cfg hm st.fs now sp cmd fs1)
          fs := fs1
          saved := st.saved } from by simp only [cleanupOldCache, if_neg hnoclean]]
  refine ⟨hmain, ?_, hdst⟩
  have hsig1 : getBuildSignature hm fs1 sp cmd = getBuildSignature hm st.fs sp cmd :=
    getBuildSignature_congr hm sp cmd hscript
  have hlook : lookupKey (insertKey st.metadata (getBuildSignature hm st.fs sp cmd)
      (mintEntry cfg hm st.fs now sp cmd fs1)) (getBuildSignature hm st.fs sp cmd) =
      some (mintEntry cfg hm st.fs now sp cmd fs1) :=
    lookupKey_insertKey_self _ _ _
  have hfresh : now - (mintEntry cfg hm st.fs now sp cmd fs1).timestamp <
      retentionSeconds cfg.retentionDays := by
    show now - now < cfg.retentionDays * 86400
    rw [sub_self]
    positivity
  have hexists : pathExists fs1 (cachePathOfEntry cfg
      (mintEntry cfg hm st.fs now sp cmd fs1)) = true := by
    show (fsLookup fs1 (joinPath cfg.cacheDir (mintCacheId hm st.fs now sp cmd))).isSome = true
    rw [show joinPath cfg.cacheDir (mintCacheId hm st.fs now sp cmd) =
      mintCachePath cfg hm st.fs now sp cmd from rfl, hdst]
    exact hout
  simp only [getCachedBuild, hpro, Bool.not_true, Bool.false_eq_true, if_false,
    saveMetadata, hsig1, hlook]
  rw [if_pos hfresh]
  simp only [hexists, if_true]
  rfl

/-- A 2 GiB build output — larger than the default 1024 MB cache maximum. -/
def c7Out : FsNode :=
  { isDir := false, readable := true, content := List.replicate 2147483648 0, mtime := "9" }

/-- Initial state for the C7 counterexample: empty cache, readable script,
oversized build output. -/
def c7St0 : BuildState :=
  { metadata := []
    fs := { nodes := [("s.py", c2Script), ("out", c7Out)], badDst := [] }
    saved := [] }

/-- The filesystem right after `cache_build` copies the artifact. -/
def c7Fs1 : Fs :=
  { nodes := [("s.py", c2Script), ("out", c7Out), ("cache/build_H:5:cmd_0", c7Out)]
    badDst := [] }

/-- The recorded entry with its size expression still unevaluated. -/
def c7EntryRaw : CacheEntry :=
  { cacheId := "build_H:5:cmd_0", timestamp := 0, scriptPath := "s.py", command := "cmd",
    sizeMB := ((List.replicate 2147483648 (0 : Nat)).length : ℚ) / (1024 * 1024) }

/-- The recorded entry: 2147483648 bytes = 2048 MB. -/
def c7Entry : CacheEntry :=
  { cacheId := "build_H:5:cmd_0", timestamp := 0, scriptPath := "s.py", command := "cmd",
    sizeMB := 2048 }

/-- The state after `cache_build` finished: the eviction pass (2048 MB
recorded against a 1024 MB maximum) deleted the just-stored entry and its
directory again. -/
def c7St2 : BuildState :=
  { metadata := []
    fs := { nodes := [("s.py", c2Script), ("out", c7Out)], badDst := [] }
    saved := [] }

/-- C7 (counterexample to the claim as stated): `cache_build` succeeds
(returns `True`) for a 2048 MB artifact under the default 1024 MB maximum,
the script file and invocation are unchanged, and yet the immediately
following `get_cached_build` with the same script and invocation is a miss
— the eviction pass inside `cache_build` already deleted the fresh entry. -/
theorem c7_claim_counterexample :
    (cacheBuild c1Cfg c1Hm 0 c7St0 "s.py" "cmd" "out").1 = true ∧
    fsLookup (cacheBuild c1Cfg c1Hm 0 c7St0 "s.py" "cmd" "out").2.fs "s.py" =
      fsLookup c7St0.fs "s.py" ∧
    (getCachedBuild c1Cfg c1Hm 0 (cacheBuild c1Cfg c1Hm 0 c7St0 "s.py" "cmd" "out").2
      "s.py" "cmd").1 = none := by
  have h1 : cacheBuild c1Cfg c1Hm 0 c7St0 "s.py" "cmd" "out" =
      (true, cleanupOldCache c1Cfg
        { metadata := [("H:5:cmd", c7EntryRaw)], fs := c7Fs1,
          saved := [("H:5:cmd", c7EntryRaw)] }) := by
    with_unfolding_all rfl
  have h2 : c7EntryRaw = c7Entry := by
    simp only [c7EntryRaw, c7Entry, List.length_replicate, CacheEntry.mk.injEq]
    norm_num
  have h3 : cleanupOldCache c1Cfg
      { metadata := [("H:5:cmd", c7Entry)], fs := c7Fs1,
        saved := [("H:5:cmd", c7Entry)] } = c7St2 := by
    with_unfolding_all rfl
  have hmain : cacheBuild c1Cfg c1Hm 0 c7St0 "s.py" "cmd" "out" = (true, c7St2) := by
    rw [h1, h2, h3]
  rw [hmain]
  exact ⟨rfl, by with_unfolding_all rfl, by with_unfolding_all rfl⟩

/-- Filesystem after the copy in the C7 witness run (0-byte artifact). -/
def c7WFs1 : Fs :=
  { nodes := [("s.py", c2Script), ("out", c2Out), ("cache/build_H:5:cmd_0", c2Out)]
    badDst := [] }

/-- Witness for the amended C7 at a concrete in-budget store. -/
theorem c7_store_lookup_roundtrip_amended_witness :
    c1Cfg.proFeaturesEnabled = true ∧
    (0 : ℚ) < c1Cfg.retentionDays ∧
    pathExists c2St0.fs "out" = true ∧
    fsCopy c2St0.fs "out" (mintCachePath c1Cfg c1Hm c2St0.fs 0 "s.py" "cmd") = some c7WFs1 ∧
    fsLookup c7WFs1 "s.py" = fsLookup c2St0.fs "s.py" ∧
    totalSizeMB (insertKey c2St0.metadata (getBuildSignature c1Hm c2St0.fs "s.py" "cmd")
      (mintEntry c1Cfg c1Hm c2St0.fs 0 "s.py" "cmd" c7WFs1)) ≤ c1Cfg.maxSizeMB ∧
    (cacheBuild c1Cfg c1Hm 0 c2St0 "s.py" "cmd" "out" =
      (true, saveMetadata
        { metadata := insertKey c2St0.metadata (getBuildSignature c1Hm c2St0.fs "s.py" "cmd")
            (mintEntry c1Cfg c1Hm c2St0.fs 0 "s.py" "cmd" c7WFs1)
          fs := c7WFs1
          saved := c2St0.saved }) ∧
    getCachedBuild c1Cfg c1Hm 0
        (saveMetadata
          { metadata := insertKey c2St0.metadata (getBuildSignature c1Hm c2St0.fs "s.py" "cmd")
              (mintEntry c1Cfg c1Hm c2St0.fs 0 "s.py" "cmd" c7WFs1)
            fs := c7WFs1
            saved := c2St0.saved }) "s.py" "cmd" =
      (some (mintCachePath c1Cfg c1Hm c2St0.fs 0 "s.py" "cmd"),
        saveMetadata
          { metadata := insertKey c2St0.metadata (getBuildSignature c1Hm c2St0.fs "s.py" "cmd")
              (mintEntry c1Cfg c1Hm c2St0.fs 0 "s.py" "cmd" c7WFs1)
            fs := c7WFs1
            saved := c2St0.saved }) ∧
    fsLookup c7WFs1 (mintCachePath c1Cfg c1Hm c2St0.fs 0 "s.py" "cmd") =
      fsLookup c2St0.fs "out") :=
  ⟨by with_unfolding_all decide, by with_unfolding_all decide, by with_unfolding_all decide,
    by with_unfolding_all decide, by with_unfolding_all decide, by with_unfolding_all decide,
    c7_store_lookup_roundtrip_amended c1Cfg c1Hm 0 c2St0 "s.py" "cmd" "out" c7WFs1
      (by with_unfolding_all decide) (by with_unfolding_all decide)
      (by with_unfolding_all decide) (by with_unfolding_all decide)
      (by with_unfolding_all decide) (by with_unfolding_all decide)⟩

/-! ## C8: signature sensitivity -/

theorem lookupKey_eq_none_of_keys_ne {α : Type} {l : List (String × α)} {k : String}
    (h : ∀ p ∈ l, p.1 ≠ k) : lookupKey l k = none := by
  have hf : l.find? (fun p => p.1 == k) = none :=
    List.find?_eq_none.mpr (fun p hp => by simpa using h p hp)
  simp [lookupKey, hf]

theorem getCachedBuild_fst_none_of_keys_ne (cfg : ProConfig) (hm : HashModel) (now : ℚ)
    (st : BuildState) (sp cmd : String)
    (h : ∀ p ∈ st.metadata, p.1 ≠ getBuildSignature hm st.fs sp cmd) :
    (getCachedBuild cfg hm now st sp cmd).1 = none := by
  by_cases hpro : cfg.proFeaturesEnabled
  · simp [getCachedBuild, hpro, lookupKey_eq_none_of_keys_ne h]
  · simp [getCachedBuild, hpro]

theorem sigData_ne_of_hash_ne {a b m c : String} (hne : a ≠ b)
    (hlen : a.length = b.length) :
    a ++ ":" ++ m ++ ":" ++ c ≠ b ++ ":" ++ m ++ ":" ++ c := by
  intro heq
  apply hne
  have hd := congrArg String.data heq
  simp only [String.data_append, List.append_assoc] at hd
  have hlen' : a.data.length = b.data.length := hlen
  exact String.ext (List.append_inj hd hlen').1

theorem sigData_ne_of_cmd_ne {a m c c' : String} (hne : c ≠ c') :
    a ++ ":" ++ m ++ ":" ++ c ≠ a ++ ":" ++ m ++ ":" ++ c' := by
  intro heq
  apply hne
  have hd := congrArg String.data heq
  simp only [String.data_append, List.append_assoc] at hd
  have h1 := List.append_cancel_left hd
  have h2 := List.append_cancel_left h1
  have h3 := List.append_cancel_left h2
  have h4 := List.append_cancel_left h3
  exact String.ext h4

theorem getBuildSignature_eq_of_node (hm : HashModel) {fs : Fs} {sp : String}
    {n : FsNode} (cmd : String) (hn : fsLookup fs sp = some n)
    (hr : n.readable = true) (hd : n.isDir = false) :
    getBuildSignature hm fs sp cmd =
      hm.strHash (hm.fileHash n.content ++ ":" ++ n.mtime ++ ":" ++ cmd) := by
  unfold getBuildSignature getFileHash
  rw [hn]
  simp [hr, hd]

/-- C8: under the collision-resistance hypotheses on the hash (no collision
between the two file contents, fixed-width digests, and injectivity of the
outer signature hash on the two data strings in question), changing the
readable script's content — with path, modification time and invocation
unchanged — changes the build signature, and changing the invocation string
alone does likewise; in both cases a store whose entries all carry the old
signature answers the post-change lookup with a miss. -/
theorem c8_signature_sensitivity (hm : HashModel) (fs fs' : Fs) (sp cmd cmd' : String)
    (n n' : FsNode)
    (hn : fsLookup fs sp = some n) (hn' : fsLookup fs' sp = some n')
    (hr : n.readable = true) (hd : n.isDir = false)
    (hr' : n'.readable = true) (hd' : n'.isDir = false)
    (hmtime : n'.mtime = n.mtime) :
    (hm.fileHash n.content ≠ hm.fileHash n'.content →
     (hm.fileHash n.content).length = (hm.fileHash n'.content).length →
     (hm.strHash (hm.fileHash n.content ++ ":" ++ n.mtime ++ ":" ++ cmd) =
        hm.strHash (hm.fileHash n'.content ++ ":" ++ n.mtime ++ ":" ++ cmd) →
      hm.fileHash n.content ++ ":" ++ n.mtime ++ ":" ++ cmd =
        hm.fileHash n'.content ++ ":" ++ n.mtime ++ ":" ++ cmd) →
     getBuildSignature hm fs sp cmd ≠ getBuildSignature hm fs' sp cmd ∧
     ∀ (cfg : ProConfig) (now : ℚ) (md : List (String × CacheEntry))
       (saved : List (String × CacheEntry)),
       (∀ p ∈ md, p.1 = getBuildSignature hm fs sp cmd) →
       (getCachedBuild cfg hm now ⟨md, fs', saved⟩ sp cmd).1 = none) ∧
    (cmd ≠ cmd' →
     (hm.strHash (hm.fileHash n.content ++ ":" ++ n.mtime ++ ":" ++ cmd) =
        hm.strHash (hm.fileHash n.content ++ ":" ++ n.mtime ++ ":" ++ cmd') →
      hm.fileHash n.content ++ ":" ++ n.mtime ++ ":" ++ cmd =
        hm.fileHash n.content ++ ":" ++ n.mtime ++ ":" ++ cmd') →
     getBuildSignature hm fs sp cmd ≠ getBuildSignature hm fs sp cmd' ∧
     ∀ (cfg : ProConfig) (now : ℚ) (md : List (String × CacheEntry))
       (saved : List (String × CacheEntry)),
       (∀ p ∈ md, p.1 = getBuildSignature hm fs sp cmd) →
       (getCachedBuild cfg hm now ⟨md, fs, saved⟩ sp cmd').1 = none) := by
  have hsig1 := getBuildSignature_eq_of_node hm cmd hn hr hd
  constructor
  · intro hhash hlen hstr
    have hsig2 := getBuildSignature_eq_of_node hm cmd hn' hr' hd'
    rw [hmtime] at hsig2
    have hne : getBuildSignature hm fs sp cmd ≠ getBuildSignature hm fs' sp cmd := by
      rw [hsig1, hsig2]
      intro heq
      exact sigData_ne_of_hash_ne hhash hlen (hstr heq)
    refine ⟨hne, ?_⟩
    intro cfg now md saved hkeys
    apply getCachedBuild_fst_none_of_keys_ne
    intro p hp
    rw [hkeys p hp]
    exact hne
  · intro hcmd hstr
    have hsig2 := getBuildSignature_eq_of_node hm cmd' hn hr hd
    have hne : getBuildSignature hm fs sp cmd ≠ getBuildSignature hm fs sp cmd' := by
      rw [hsig1, hsig2]
      intro heq
      exact sigData_ne_of_cmd_ne hcmd (hstr heq)
    refine ⟨hne, ?_⟩
    intro cfg now md saved hkeys
    apply getCachedBuild_fst_none_of_keys_ne
    intro p hp
    rw [hkeys p hp]
    exact hne

/-- Hash environment for the C8 witness: distinct equal-length digests for
the two contents in play, identity outer hash. -/
def c8Hm : HashModel :=
  { fileHash := fun l => if l = [0] then "ha" else "hb", strHash := id }

/-- Original script node for the C8 witness. -/
def c8Node : FsNode := { isDir := false, readable := true, content := [0], mtime := "7" }

/-- Script node after a one-byte content change, same mtime. -/
def c8NodeB : FsNode := { isDir := false, readable := true, content := [1], mtime := "7" }

/-- Filesystem before the change. -/
def c8Fs : Fs := { nodes := [("s.py", c8Node)], badDst := [] }

/-- Filesystem after the change. -/
def c8FsB : Fs := { nodes := [("s.py", c8NodeB)], badDst := [] }

/-- Witness for C8: at this concrete instance both a content change and an
invocation change flip the signature. -/
theorem c8_signature_sensitivity_witness :
    fsLookup c8Fs "s.py" = some c8Node ∧
    fsLookup c8FsB "s.py" = some c8NodeB ∧
    c8Node.readable = true ∧ c8Node.isDir = false ∧
    c8NodeB.readable = true ∧ c8NodeB.isDir = false ∧
    c8NodeB.mtime = c8Node.mtime ∧
    c8Hm.fileHash c8Node.content ≠ c8Hm.fileHash c8NodeB.content ∧
    (c8Hm.fileHash c8Node.content).length = (c8Hm.fileHash c8NodeB.content).length ∧
    ("c" : String) ≠ "d" ∧
    getBuildSignature c8Hm c8Fs "s.py" "c" ≠ getBuildSignature c8Hm c8FsB "s.py" "c" ∧
    getBuildSignature c8Hm c8Fs "s.py" "c" ≠ getBuildSignature c8Hm c8Fs "s.py" "d" :=
  ⟨by with_unfolding_all decide, by with_unfolding_all decide, by with_unfolding_all decide,
    by with_unfolding_all decide, by with_unfolding_all decide, by with_unfolding_all decide,
    by with_unfolding_all decide, by with_unfolding_all decide, by with_unfolding_all decide,
    by with_unfolding_all decide,
    ((c8_signature_sensitivity c8Hm c8Fs c8FsB "s.py" "c" "d" c8Node c8NodeB
      (by with_unfolding_all decide) (by with_unfolding_all decide)
      (by with_unfolding_all decide) (by with_unfolding_all decide)
      (by with_unfolding_all decide) (by with_unfolding_all decide)
      (by with_unfolding_all decide)).1
      (by with_unfolding_all decide) (by with_unfolding_all decide) (fun h => h)).1,
    ((c8_signature_sensitivity c8Hm c8Fs c8FsB "s.py" "c" "d" c8Node c8NodeB
      (by with_unfolding_all decide) (by with_unfolding_all decide)
      (by with_unfolding_all decide) (by with_unfolding_all decide)
      (by with_unfolding_all decide) (by with_unfolding_all decide)
      (by with_unfolding_all decide)).2
      (by with_unfolding_all decide) (fun h => h)).1⟩

/-! ## C9: bounded traversal visits each file at most once -/

/-- What one `_scan_file` call does to the visited set: it never unmarks a
file, it keeps the set duplicate-free, and every newly visited path is an
existing `.py` file of the modelled directory. -/
def ScanStep (d : PyDir) (s sNext : ScanState) : Prop :=
  (s.scanned.Nodup → sNext.scanned.Nodup) ∧
  (∀ x ∈ s.scanned, x ∈ sNext.scanned) ∧
  (∀ x ∈ sNext.scanned,
    x ∈ s.scanned ∨ (dirHasFile d x = true ∧ x.endsWith ".py" = true))

theorem scanStep_refl (d : PyDir) (s : ScanState) : ScanStep d s s :=
  ⟨fun h => h, fun _ hx => hx, fun _ hx => Or.inl hx⟩

theorem scanStep_trans {d : PyDir} {s t u : ScanState}
    (h1 : ScanStep d s t) (h2 : ScanStep d t u) : ScanStep d s u := by
  refine ⟨fun h => h2.1 (h1.1 h), fun x hx => h2.2.1 x (h1.2.1 x hx), fun x hx => ?_⟩
  rcases h2.2.2 x hx with hmem | hfile
  · exact h1.2.2 x hmem
  · exact Or.inr hfile

theorem foldScan_scanStep (d : PyDir) (r : Nat) (filePath : String)
    (ih : ∀ (q : String) (s : ScanState), ScanStep d s (scanGo d r q s)) :
    ∀ (items : List String) (s1 : ScanState),
      ScanStep d s1 (items.foldl
        (fun s item =>
          if item.endsWith ".py" && !(item == baseName filePath)
          then scanGo d r (joinPath (dirName filePath) item) s
          else s) s1) := by
  intro items
  induction items with
  | nil => intro s1; exact scanStep_refl d s1
  | cons item rest ihf =>
    intro s1
    simp only [List.foldl_cons]
    by_cases hc : (item.endsWith ".py" && !(item == baseName filePath)) = true
    · rw [if_pos hc]
      exact scanStep_trans (ih (joinPath (dirName filePath) item) s1)
        (ihf (scanGo d r (joinPath (dirName filePath) item) s1))
    · rw [if_neg hc]
      exact ihf s1

theorem scanGo_scanStep (d : PyDir) :
    ∀ (r : Nat) (filePath : String) (st : ScanState),
      ScanStep d st (scanGo d r filePath st) := by
  intro r
  induction r with
  | zero => intro filePath st; exact scanStep_refl d st
  | succ r ih =>
    intro filePath st
    rw [scanGo]
    by_cases h1 : filePath ∈ st.scanned
    · rw [if_pos h1]; exact scanStep_refl d st
    · rw [if_neg h1]
      by_cases h2 : (!dirHasFile d filePath || !filePath.endsWith ".py") = true
      · rw [if_pos h2]; exact scanStep_refl d st
      · rw [if_neg h2]
        have hfile : dirHasFile d filePath = true ∧ filePath.endsWith ".py" = true := by
          simpa using h2
        have hstep1 : ScanStep d st
            { detected := addDetected (importsAt d filePath) st.detected
              scanned := filePath :: st.scanned } := by
          refine ⟨fun h => List.nodup_cons.mpr ⟨h1, h⟩,
            fun x hx => List.mem_cons_of_mem _ hx, fun x hx => ?_⟩
          rcases List.mem_cons.mp hx with rfl | hmem
          · exact Or.inr hfile
          · exact Or.inl hmem
        exact scanStep_trans hstep1
          (foldScan_scanStep d r filePath ih (dirListing d (dirName filePath)) _)

/-- The heuristic expansion step never touches the visited set. -/
theorem addCommonHiddenImports_scanned (cfg : ProConfig) (s : ScanState) :
    (addCommonHiddenImports cfg s).scanned = s.scanned := by
  unfold addCommonHiddenImports
  generalize cfg.commonModules = mods
  induction mods generalizing s with
  | nil => rfl
  | cons m rest ih =>
    simp only [List.foldl_cons]
    by_cases hc : s.detected.any (fun imp => imp.startsWith m) = true
    · rw [if_pos hc]; exact ih _
    · rw [if_neg hc]; exact ih s

/-- C9: a `detect_hidden_imports` call — a total function of the depth
budget, which is the code's own termination argument — visits each file
path at most once: starting from a duplicate-free visited set, the visited
set stays duplicate-free, and every newly visited path is an existing
sibling `.py` file of the modelled directory (of which there are finitely
many), so the number of per-file scans is bounded by the number of files. -/
theorem c9_scan_visits_each_file_once (cfg : ProConfig) (env : PyEnv) (d : PyDir)
    (scriptPath : String) (st : ScanState) (hnd : st.scanned.Nodup) :
    (detectHiddenImports cfg env d scriptPath st).2.scanned.Nodup ∧
    (∀ p ∈ (detectHiddenImports cfg env d scriptPath st).2.scanned,
      p ∈ st.scanned ∨ (dirHasFile d p = true ∧ p.endsWith ".py" = true)) := by
  by_cases hauto : cfg.hiddenImportsAutoDetect = true
  · have hres : (detectHiddenImports cfg env d scriptPath st).2 =
        addCommonHiddenImports cfg
          (scanGo d (cfg.scanDepth + 1) scriptPath { detected := [], scanned := [] }) := by
      simp [detectHiddenImports, hauto]
    rw [hres, addCommonHiddenImports_scanned]
    have hstep := scanGo_scanStep d (cfg.scanDepth + 1) scriptPath
      { detected := [], scanned := [] }
    constructor
    · exact hstep.1 List.nodup_nil
    · intro p hp
      rcases hstep.2.2 p hp with hmem | hfile
      · simp at hmem
      · exact Or.inr hfile
  · have hres : (detectHiddenImports cfg env d scriptPath st).2 = st := by
      have hf : cfg.hiddenImportsAutoDetect = false := by simpa using hauto
      simp [detectHiddenImports, hf]
    rw [hres]
    exact ⟨hnd, fun p hp => Or.inl hp⟩

/-- Directory with two mutually referencing sibling files for the C9
witness. -/
def c9Dir : PyDir := { path := "p", entries := [("a.py", ["b"]), ("b.py", ["a"])] }

/-- Environment for the detector witnesses. -/
def c9Env : PyEnv :=
  { stdlibModules := ["os"], builtinModules := ["sys"], importable := fun _ => true }

/-- Witness for C9 on a concrete directory with a cyclic mutual reference. -/
theorem c9_scan_visits_each_file_once_witness :
    ([] : List String).Nodup ∧
    ((detectHiddenImports c1Cfg c9Env c9Dir "p/a.py"
        { detected := [], scanned := [] }).2.scanned.Nodup ∧
    (∀ p ∈ (detectHiddenImports c1Cfg c9Env c9Dir "p/a.py"
        { detected := [], scanned := [] }).2.scanned,
      p ∈ ([] : List String) ∨
        (dirHasFile c9Dir p = true ∧ p.endsWith ".py" = true))) :=
  ⟨List.nodup_nil,
    c9_scan_visits_each_file_once c1Cfg c9Env c9Dir "p/a.py"
      { detected := [], scanned := [] } List.nodup_nil⟩

/-! ## C10: filter completeness and output shape -/

theorem sortStrings_perm (l : List String) : List.Perm (sortStrings l) l :=
  sortLt_perm _ l

theorem sortStrings_pairwise (l : List String) :
    (sortStrings l).Pairwise (fun a b : String => a ≤ b) := by
  have h := @sortLt_pairwise String (fun a b => decide (a < b)) ?_ ?_ l
  · exact h.imp (fun hab => not_lt.mp (of_decide_eq_false hab))
  · intro a b hab
    exact decide_eq_false (lt_asymm (of_decide_eq_true hab))
  · intro a b c hab hbc
    have h1 := not_lt.mp (of_decide_eq_false hab)
    have h2 := not_lt.mp (of_decide_eq_false hbc)
    exact decide_eq_false (not_lt.mpr (h2.trans h1))

theorem not_mem_of_contains_eq_false {l : List String} {x : String}
    (h : l.contains x = false) : x ∉ l := by
  intro hx
  have := List.elem_eq_true_of_mem hx
  rw [show l.contains x = l.elem x from rfl, this] at h
  cases h

theorem keepImport_not_mem {env : PyEnv} {x : String} (h : keepImport env x = true) :
    x ∉ env.stdlibModules ∧ x ∉ env.builtinModules := by
  unfold keepImport at h
  simp only [Bool.and_eq_true, Bool.not_eq_true'] at h
  exact ⟨not_mem_of_contains_eq_false h.1.1.1, not_mem_of_contains_eq_false h.1.1.2⟩

theorem filterImports_shape (env : PyEnv) (imports : List String) :
    (filterImports env imports).Nodup ∧
    (filterImports env imports).Pairwise (fun a b : String => a ≤ b) ∧
    ∀ x ∈ filterImports env imports, x ∉ env.stdlibModules ∧ x ∉ env.builtinModules := by
  unfold filterImports
  refine ⟨(sortStrings_perm _).symm.nodup (List.nodup_dedup _),
    sortStrings_pairwise _, ?_⟩
  intro x hx
  have hx1 : x ∈ (imports.filter (keepImport env)).dedup := (sortStrings_perm _).subset hx
  have hx2 : x ∈ imports.filter (keepImport env) := List.mem_dedup.mp hx1
  exact keepImport_not_mem (List.of_mem_filter hx2)

/-- C10: whatever the input script and detector state, the list
`detect_hidden_imports` returns contains no standard-library and no
built-in module name of the running environment, has no duplicates, and is
in ascending sorted order. -/
theorem c10_filter_output_shape (cfg : ProConfig) (env : PyEnv) (d : PyDir)
    (scriptPath : String) (st : ScanState) :
    (detectHiddenImports cfg env d scriptPath st).1.Nodup ∧
    (detectHiddenImports cfg env d scriptPath st).1.Pairwise (fun a b : String => a ≤ b) ∧
    ∀ x ∈ (detectHiddenImports cfg env d scriptPath st).1,
      x ∉ env.stdlibModules ∧ x ∉ env.builtinModules := by
  by_cases hauto : cfg.hiddenImportsAutoDetect = true
  · have hres : (detectHiddenImports cfg env d scriptPath st).1 =
        filterImports env (addCommonHiddenImports cfg
          (scanGo d (cfg.scanDepth + 1) scriptPath
            { detected := [], scanned := [] })).detected := by
      simp [detectHiddenImports, hauto]
    rw [hres]
    exact filterImports_shape env _
  · have hf : cfg.hiddenImportsAutoDetect = false := by simpa using hauto
    have hres : (detectHiddenImports cfg env d scriptPath st).1 = [] := by
      simp [detectHiddenImports, hf]
    rw [hres]
    simp
